import Mathlib

/-!
# Verification of the document normalization / sectioning / chunking /
  extractive-ranking core of the research-summarizer repository.

Python strings are embedded as `List Char` (ASCII texts; the heuristics in
the source are tuned for English ASCII input).  Machine integers are `Nat`;
wherever Python subtraction can go negative and is then only compared
against a nonnegative quantity, truncated `Nat` subtraction gives the same
branch outcome, which is noted at the relevant definitions.
-/

/-- Python string type, embedded as a list of characters. -/
abbrev PyStr := List Char

namespace PyHelpers

/-- Python's `\s` character class (ASCII range): space, tab, newline,
carriage return, vertical tab, form feed. -/
def isPyWS (c : Char) : Bool :=
  c = ' ' || c = '\t' || c = '\n' || c = '\x0d' || c = '\x0b' || c = '\x0c'

/-- `str.strip()`: drop whitespace from both ends. -/
def pyStrip (s : PyStr) : PyStr :=
  (((s.dropWhile isPyWS).reverse).dropWhile isPyWS).reverse

/-- `str.lower()` (ASCII). -/
def pyLower (s : PyStr) : PyStr := s.map Char.toLower

/-- Python slice `s[a:b]` (with `0 ≤ a ≤ b ≤ len` in all our uses;
truncated subtraction yields the empty slice when `b ≤ a`, as in Python). -/
def pySlice (s : PyStr) (a b : Nat) : PyStr := (s.drop a).take (b - a)

/-- `str.rfind(' ', a, b)`: the largest index in `[a, b)` holding a space
character, if any (Python returns `-1` otherwise; we return `none`). -/
def rfindSpace (s : PyStr) (a b : Nat) : Option Nat :=
  match b with
  | 0 => none
  | Nat.succ b' =>
      if a ≤ b' then
        if s.getD b' ' ' = ' ' ∧ b' < s.length then some b'
        else rfindSpace s a b'
      else none

end PyHelpers

open PyHelpers

/-! ## Sliding character window chunker
`_chunk_text` from `src/ingestion/preprocess.py` (lines 166-209). -/

namespace Chunker

/-- The (possibly space-snapped) window end of one `_chunk_text` iteration
(lines 179-192 of `src/ingestion/preprocess.py`):
`end = min(start+chunk_size, text_len)`; if `end < text_len` and
`start+overlap < end`, snap `end` back to the last space found in
`[start+overlap, end)` (keeping `end` when there is none). -/
def chunkEnd (text : PyStr) (chunk_size overlap start : Nat) : Nat :=
  if min (start + chunk_size) text.length < text.length ∧
      start + overlap < min (start + chunk_size) text.length then
    (rfindSpace text (start + overlap)
        (min (start + chunk_size) text.length)).getD
      (min (start + chunk_size) text.length)
  else min (start + chunk_size) text.length

/-- The next loop start (lines 198-207): `next_start = end - overlap`,
forced to `start + max(1, chunk_size - overlap)` whenever it would not
exceed `start`.  (`end - overlap` can be negative in Python; it is then
`≤ start`, exactly as the truncated `Nat` value `0` is, so the branch
agrees.  Likewise `max(1, chunk_size - overlap)` agrees with the
truncated form, both being `max(1, ·) = 1` when `overlap ≥ chunk_size`.) -/
def nextStart (chunk_size overlap start endv : Nat) : Nat :=
  if endv - overlap ≤ start then start + max 1 (chunk_size - overlap)
  else endv - overlap

/-- One iteration of the `_chunk_text` loop body: the emitted window end
and the next start. -/
def chunkStep (text : PyStr) (chunk_size overlap start : Nat) : Nat × Nat :=
  (chunkEnd text chunk_size overlap start,
   nextStart chunk_size overlap start (chunkEnd text chunk_size overlap start))

/-- The span list produced by the `while start < text_len` loop of
`_chunk_text`: each iteration records the window `[start, end)` it emits
and continues from the computed next start.  The recursion is fueled so
that it is structural; `fuel = text.length` is sufficient from
`start = 0` because the start index strictly increases on every
iteration (`nextStart_progress`), as `chunkLoop_fuel_invariant` below
makes precise, so the fueled loop agrees with the source's unconditional
`while` loop. -/
def chunkLoop (text : PyStr) (chunk_size overlap : Nat) :
    Nat → Nat → List (Nat × Nat)
  | 0, _ => []
  | Nat.succ fuel, start =>
      if start < text.length then
        (start, (chunkStep text chunk_size overlap start).1) ::
          chunkLoop text chunk_size overlap fuel
            (chunkStep text chunk_size overlap start).2
      else []

/-- The chunk windows of `_chunk_text`: the whole text as a single window
when `len(text) <= chunk_size`, otherwise the windows of the loop. -/
def chunkSpans (text : PyStr) (chunk_size overlap : Nat) : List (Nat × Nat) :=
  if text.length ≤ chunk_size then [(0, text.length)]
  else chunkLoop text chunk_size overlap text.length 0

/-- `_chunk_text(text, chunk_size, overlap)`: each emitted chunk is the
slice `text[start:end]` of its window (for the degenerate single-window
case, `text[0:len] = text`, so this agrees with the source's
`return [text]`). -/
def chunkText (text : PyStr) (chunk_size overlap : Nat) : List PyStr :=
  (chunkSpans text chunk_size overlap).map (fun se => pySlice text se.1 se.2)

end Chunker


/-! ## Extractive ranker
`summarize_extractive` from `src/models/extractive.py` (lines 14-81).
Sentence splitting (`nltk.sent_tokenize`) is an external library call: the
ranker is embedded as a function of the tokenizer's output, the list of
sentences.  The TF-IDF vectorizer (`sklearn`) is likewise external: it is
a parameter `vect` returning `none` for its `ValueError` (empty
vocabulary) and otherwise the per-sentence score row-sums.  Scores are
modelled as integers; every verified property is independent of the score
values.  numpy's `argsort` leaves the order of tied scores unspecified
(quicksort); the embedding fixes index-order tie-breaking, and no claim
below depends on the tie order. -/

namespace Extractive

/-- `str.startswith((p, ...))`: any of the prefixes matches. -/
def startsWithAny (s : PyStr) (ps : List PyStr) : Bool :=
  ps.any (fun p => p.isPrefixOf s)

/-- Python `pat in s`: substring containment. -/
def containsSub : PyStr → PyStr → Bool
  | [], pat => pat.isEmpty
  | c :: t, pat => pat.isPrefixOf (c :: t) || containsSub t pat

/-- Python `str.split()`: split on whitespace runs, dropping empties. -/
def pySplitWS (s : PyStr) : List PyStr :=
  (s.splitOnP isPyWS).filter (fun w => !w.isEmpty)

/-- The sentence eligibility filter (lines 27-48 of
`src/models/extractive.py`), applied to each sentence `s` with
`s_lower = s.lower().strip()`: drop sentences shorter than 20 characters,
those starting with citation tokens, those containing
`preprint`/`copyright`, those whose alphabetic ratio (over the original
`s`) is below 0.7, and those with more than 20% single-letter
non-`a`/`i` words.  The Python float comparisons `alpha/total < 0.7` and
`single/words > 0.2` are embedded as the exact rational comparisons
`10*alpha < 7*total` and `5*single > words`; for any sentence shorter
than about 10^14 characters the double-precision quotient cannot fall on
the other side of the threshold, so the branches agree. -/
def sentenceEligible (s : PyStr) : Bool :=
  if (pyStrip (pyLower s)).length < 20 then false
  else if startsWithAny (pyStrip (pyLower s))
      [("arxiv").data, ("doi").data, ("http").data, ("vol.").data, ("no.").data] then
    false
  else if containsSub (pyStrip (pyLower s)) (("preprint").data) ||
      containsSub (pyStrip (pyLower s)) (("copyright").data) then
    false
  else if decide (0 < s.length) &&
      decide (10 * (s.filter Char.isAlpha).length < 7 * s.length) then
    false
  else if decide (0 < (pySplitWS (pyStrip (pyLower s))).length) &&
      decide (5 * ((pySplitWS (pyStrip (pyLower s))).filter
          (fun w => w.length == 1 && (w.headD ' ').isAlpha &&
            !(w == [('a' : Char)]) && !(w == [('i' : Char)]))).length >
        (pySplitWS (pyStrip (pyLower s))).length) then
    false
  else true

/-- `re.sub(r'[^a-zA-Z\s]', '', s_lower)`: keep only ASCII letters and
whitespace of the lowered, stripped sentence. -/
def cleanForTfidf (s : PyStr) : PyStr :=
  (pyStrip (pyLower s)).filter (fun c => c.isAlpha || isPyWS c)

/-- The `(original index, sentence)` pairs surviving the filter loop. -/
def validPairs (sentences : List PyStr) : List (Nat × PyStr) :=
  sentences.enum.filter (fun p => sentenceEligible p.2)

/-- `valid_indices` of the source. -/
def validIndices (sentences : List PyStr) : List Nat :=
  (validPairs sentences).map Prod.fst

/-- `clean_sentences` of the source. -/
def cleanSentences (sentences : List PyStr) : List PyStr :=
  (validPairs sentences).map (fun p => cleanForTfidf p.2)

/-- `np.argsort` (ascending) on the score vector, as indices; ties are
broken by index order (numpy leaves the tie order unspecified). -/
def argsortAsc (scores : List Int) : List Nat :=
  (List.insertionSort
      (fun p q : Nat × Int => p.2 < q.2 ∨ (p.2 = q.2 ∧ p.1 ≤ q.1))
      scores.enum).map Prod.fst

/-- Python slice `l[-k:]`; for `k = 0` this is the whole list (the
`-0 = 0` pitfall), otherwise the last `min k len` elements. -/
def pyLastSlice (l : List Nat) (k : Nat) : List Nat :=
  if k = 0 then l else l.drop (l.length - k)

/-- `" ".join(xs)`. -/
def joinSpace (xs : List PyStr) : PyStr := List.intercalate [' '] xs

/-- `summarize_extractive(text, num_sentences)` after sentence
tokenization: returns `(joined summary, selected sentences)`.  Mirrors
lines 14-81 of `src/models/extractive.py`:
empty sentence list → `("", [])`; empty filtered corpus → the fixed
message and `[]`; vectorizer `ValueError` → first `num_sentences` raw
sentences verbatim; otherwise top scores are selected
(`argsort()[-k:][::-1]` when more than `num_sentences` survive, else all)
and mapped back through `valid_indices`, sorted into original order. -/
def summarizeExtractive (sentences : List PyStr) (num_sentences : Nat)
    (vect : List PyStr → Option (List Int)) : PyStr × List PyStr :=
  if sentences.isEmpty then ([], [])
  else if (cleanSentences sentences).isEmpty then
    (("Could not extract meaningful sentences.").data, [])
  else
    match vect (cleanSentences sentences) with
    | none =>
        (joinSpace (sentences.take num_sentences),
          sentences.take num_sentences)
    | some sentence_scores =>
        let top_local_indices :=
          if (cleanSentences sentences).length ≤ num_sentences then
            List.range (cleanSentences sentences).length
          else (pyLastSlice (argsortAsc sentence_scores) num_sentences).reverse
        let top_original_indices :=
          List.insertionSort (· ≤ ·)
            (top_local_indices.map (fun i => (validIndices sentences).getD i 0))
        let summary_sentences :=
          top_original_indices.map (fun i => sentences.getD i [])
        (joinSpace summary_sentences, summary_sentences)

end Extractive


/-! ## Hybrid orchestrator
`summarize_hybrid` from `paper-summarizer/src/hybrid.py`,
`summarize_abstractive` from `paper-summarizer/src/abstractive.py`, and
the dispatch around them in `paper-summarizer/app.py` (lines 160-172).
The external HuggingFace pipeline is an oracle
`pipe? : Option (PyStr → Option PyStr)`: `none` models a model-load
failure (offline, timeout — the `raise RuntimeError` of
`abstractive.py` lines 14-20), and a loaded pipeline maps a chunk to
`none` when generation for that chunk raises.  The generation-length
parameters the source derives from the chunk's word count are arguments
of the external call and are absorbed into the oracle.  The sentence
tokenizer `tok` (nltk) is likewise an oracle parameter. -/

namespace Hybrid

open Extractive

/-- `summarize_abstractive(chunks, model_name)`: error when the pipeline
cannot be loaded; otherwise summarize each chunk, skipping chunks whose
generation raises (`continue`), returning `""` when none succeeded and
the space-joined successes otherwise. -/
def summarizeAbstractive (chunks : List PyStr)
    (pipe? : Option (PyStr → Option PyStr)) : Except PyStr PyStr :=
  match pipe? with
  | none => Except.error (("Failed to load abstractive model").data)
  | some pipe =>
      if (chunks.filterMap pipe).isEmpty then Except.ok []
      else Except.ok (joinSpace (chunks.filterMap pipe))

/-- `text.count('.')`. -/
def countDots (s : PyStr) : Nat := (s.filter (fun c => c = '.')).length

/-- `summarize_hybrid(text, model_name, reduction_ratio=0.5)`: empty text
short-circuits to `""`; otherwise the extractive ranker condenses the
text to `max(5, int(count('.') * 0.5))` sentences (for nonnegative `n`,
`int(n * 0.5)` is exactly `n / 2` in integers since `n * 0.5` is an exact
float for machine-sized `n`), the selected sentences are re-joined, and
the condensed text is handed to the abstractive step as a single chunk.
A failure of the abstractive step propagates to the caller. -/
def summarizeHybrid (text : PyStr) (tok : PyStr → List PyStr)
    (vect : List PyStr → Option (List Int))
    (pipe? : Option (PyStr → Option PyStr)) : Except PyStr PyStr :=
  if text.isEmpty then Except.ok []
  else
    summarizeAbstractive
      [joinSpace ((summarizeExtractive (tok text)
          (max 5 (countDots text / 2)) vect).2)]
      pipe?

/-- The summary dispatch of `paper-summarizer/app.py` (lines 157-172):
for the abstractive method, run hybrid or plain abstractive summarization
under a `try`; any exception falls back to the extractive ranker on the
(uncondensed) focus text with the default 10 sentences, tagged
`extractive (fallback)`.  Returns `(summary_text, used_method)`. -/
def appSummarize (method_abstractive use_hybrid : Bool) (focus_text : PyStr)
    (chunks : List PyStr) (tok : PyStr → List PyStr)
    (vect : List PyStr → Option (List Int))
    (pipe? : Option (PyStr → Option PyStr)) : PyStr × PyStr :=
  if method_abstractive then
    match (if use_hybrid then summarizeHybrid focus_text tok vect pipe?
           else summarizeAbstractive chunks pipe?) with
    | Except.ok s =>
        (s, if use_hybrid then ("hybrid (extractive+abstractive)").data
            else ("abstractive").data)
    | Except.error _ =>
        ((summarizeExtractive (tok focus_text) 10 vect).1,
          ("extractive (fallback)").data)
  else
    ((summarizeExtractive (tok focus_text) 10 vect).1, ("extractive").data)

end Hybrid


/-! ## Ingestion normalizer, sectioner, focus builder and `preprocess`
From `src/ingestion/preprocess.py`.  The regular expressions of the
source are implemented concretely: each pattern is a hand-compiled
matcher whose greedy/backtracking behaviour is spelled out in the doc
comments.  All of these patterns have the property that every `\s*`/`\w+`
run is followed by a character class disjoint from it, so the greedy
match is deterministic; alternations and optional groups are tried in
the source pattern's order. -/

namespace Ingestion

/-- Python's `\w` (ASCII): letters, digits, underscore. -/
def isWordChar (c : Char) : Bool := c.isAlphanum || c = '_'

/-- Case-insensitive prefix test (the source compiles its patterns with
`re.IGNORECASE`). -/
def ciHasPre (s pat : PyStr) : Bool :=
  (pyLower pat).isPrefixOf (pyLower s)

/-- `re.sub(r'(\w+)-\s*\n?\s*(\w+)', r'\1\2', text)` (line 54): delete a
hyphen (plus surrounding whitespace) standing between two word runs.
Since `\s ⊇ \n`, the middle `\s*\n?\s*` matches exactly the whitespace
runs, and both `\w+` groups are greedy-deterministic (bounded by the
`-` and by non-word characters).  `re.sub` scans left to right and
resumes after each replacement, which is the single pass implemented
here; the recursion is fueled (the fuel only ever decreases as input is
consumed, and `fuel = length` is sufficient because every step consumes
at least one character). -/
def hyphenSubF : Nat → PyStr → PyStr
  | 0, l => l
  | _ + 1, [] => []
  | fuel + 1, c :: t =>
      if isWordChar c then
        let w := (c :: t).takeWhile isWordChar
        match (c :: t).dropWhile isWordChar with
        | '-' :: rest2 =>
            let rest3 := rest2.dropWhile isPyWS
            let w2 := rest3.takeWhile isWordChar
            if w2.isEmpty then w ++ '-' :: hyphenSubF fuel rest2
            else w ++ w2 ++ hyphenSubF fuel (rest3.dropWhile isWordChar)
        | rest => w ++ hyphenSubF fuel rest
      else c :: hyphenSubF fuel t

/-- The hyphen-repair substitution at sufficient fuel. -/
def hyphenSub (l : PyStr) : PyStr := hyphenSubF l.length l

/-- `re.sub(r'\s+', ' ', text)` (line 57): every maximal whitespace run
becomes one space.  The flag records whether the previous character was
whitespace (i.e. whether we are inside a run already collapsed). -/
def wsCollapseGo : Bool → PyStr → PyStr
  | _, [] => []
  | inRun, c :: t =>
      if isPyWS c then
        if inRun then wsCollapseGo true t else ' ' :: wsCollapseGo true t
      else c :: wsCollapseGo false t

/-- Whitespace collapse. -/
def wsCollapse (l : PyStr) : PyStr := wsCollapseGo false l

/-- The tail `(?:\s*[:\.]?)\s*\n` of the references pattern (line 72):
some whitespace, an optional colon/period, more whitespace, then a
literal newline.  Since `\s*` may itself consume newlines, the tail
matches iff the maximal whitespace run contains a newline, or is
followed by `:`/`.` whose own whitespace run contains a newline. -/
def refTail (l : PyStr) : Bool :=
  if (l.takeWhile isPyWS).contains '\n' then true
  else
    match l.drop (l.takeWhile isPyWS).length with
    | c :: t => if c = ':' || c = '.' then (t.takeWhile isPyWS).contains '\n' else false
    | [] => false

/-- The keyword alternation
`(References|Bibliography|LITERATURE CITED|Reference List)` of line 72
followed by the tail, tried in pattern order (case-insensitive). -/
def refKw (s : PyStr) : Bool :=
  (ciHasPre s (("references").data) && refTail (s.drop 10)) ||
  (ciHasPre s (("bibliography").data) && refTail (s.drop 12)) ||
  (ciHasPre s (("literature cited").data) && refTail (s.drop 16)) ||
  (ciHasPre s (("reference list").data) && refTail (s.drop 14))

/-- The body after `(?:^|\n)` of the references pattern:
`\s*(?:[0-9]+\.?\s*)?` then the keyword.  `\s*` runs are
greedy-deterministic (followed by a digit or letter); the optional
numbering group backtracks through digit-run lengths and the optional
dot, then is skipped. -/
def refBody (rest : PyStr) : Bool :=
  let rest1 := rest.dropWhile isPyWS
  let drun := (rest1.takeWhile Char.isDigit).length
  ((List.range drun).any (fun i =>
    let after := rest1.drop (drun - i)
    (match after with
     | '.' :: t => refKw (t.dropWhile isPyWS) || refKw (after.dropWhile isPyWS)
     | _ => refKw (after.dropWhile isPyWS)))) ||
  refKw rest1

/-- `re.search` of the references pattern (line 72, no MULTILINE):
leftmost match start.  The `(?:^|\n)` start is the beginning of the
searched string (zero-width) or a consumed newline character; the match
start is the position of that newline. -/
def refSearchNL : PyStr → Nat → Option Nat
  | [], _ => none
  | c :: t, pos =>
      if c = '\n' && refBody t then some pos else refSearchNL t (pos + 1)

/-- Leftmost search: first the `^` branch at position 0, then every
newline position in order. -/
def refSearch (text : PyStr) : Option Nat :=
  if refBody text then some 0 else refSearchNL text 0

/-- `search_text = text[search_area_start:]` of `_clean_text` (lines
66-67): the trailing window of the last 15000 characters,
`search_area_start = max(0, len(text) - 15000)` being the truncated
`Nat` subtraction. -/
def searchText (text : PyStr) : PyStr := text.drop (text.length - 15000)

/-- Lines 63-78 of `_clean_text`: search only `search_text`; on a match,
cut at the absolute match start (`search_area_start + match.start()`)
and strip; otherwise keep the text. -/
def cleanRefCut (text : PyStr) : PyStr :=
  ((refSearch (searchText text)).map
    (fun m => pyStrip (text.take (text.length - 15000 + m)))).getD text

/-- A 15000-character all-space window, used as the concrete trailing
window in the witness below. -/
def blankWindow : PyStr := List.replicate 15000 ' '


/-- `_clean_text` (lines 50-81): hyphen repair, whitespace collapse,
references cut, final strip. -/
def cleanText (text : PyStr) : PyStr :=
  pyStrip (cleanRefCut (wsCollapse (hyphenSub text)))

/-- The `(?:\s|$)` boundary ending every header pattern: consume one
whitespace character, or succeed at the end of the text. -/
def boundaryEnd (s : PyStr) : Option PyStr :=
  match s with
  | [] => some []
  | c :: t => if isPyWS c then some t else none

/-- A literal (case-insensitive) keyword matcher. -/
def kwLit (kw : PyStr) (s : PyStr) : Option PyStr :=
  if ciHasPre s kw then some (s.drop kw.length) else none

/-- `ABS\s?TRACT`: `ABS`, optionally one whitespace (greedy), `TRACT`. -/
def kwAbsTract (s : PyStr) : Option PyStr :=
  match kwLit (("abs").data) s with
  | none => none
  | some rest =>
      match rest with
      | c :: t =>
          if isPyWS c then
            match kwLit (("tract").data) t with
            | some r => some r
            | none => kwLit (("tract").data) rest
          else kwLit (("tract").data) rest
      | [] => none

/-- Keyword alternatives, each followed by the `(?:\s|$)` boundary; on a
boundary failure the next alternative is tried (regex backtracking). -/
def tryKws : List (PyStr → Option PyStr) → PyStr → Option PyStr
  | [], _ => none
  | k :: rest, s =>
      match k s with
      | some r =>
          (match boundaryEnd r with
           | some r2 => some r2
           | none => tryKws rest s)
      | none => tryKws rest s

/-- `(?:NUM₁|NUM₂|...)?\s*` then the keywords: numbering alternatives in
pattern order, then the skipped-group candidate; after the numbering the
greedy `\s*` runs to the next non-whitespace (the keyword's first
letter). -/
def tryNums (kws : List (PyStr → Option PyStr)) :
    List PyStr → PyStr → Option PyStr
  | [], s => tryKws kws (s.dropWhile isPyWS)
  | n :: rest, s =>
      if ciHasPre s n then
        match tryKws kws ((s.drop n.length).dropWhile isPyWS) with
        | some r => some r
        | none => tryNums kws rest s
      else tryNums kws rest s

/-- The six header patterns of `_extract_sections` (lines 96-103), as
matchers for the part after `(?:^|\s)`; each returns the remaining
suffix after the full match (including the consumed `(?:\s|$)`
boundary character, as `match.end()` does). -/
def headerBody (name : String) : PyStr → Option PyStr :=
  if name = "abstract" then tryKws [kwAbsTract]
  else if name = "introduction" then
    tryNums [kwLit (("introduction").data)]
      [("1.").data, ("1").data, ("i.").data, ("i").data]
  else if name = "methods" then
    tryNums [kwLit (("methods").data), kwLit (("method").data),
        kwLit (("approach").data), kwLit (("experimental").data)]
      [("2.").data, ("2").data, ("ii.").data, ("ii").data]
  else if name = "results" then
    tryNums [kwLit (("results").data), kwLit (("result").data)]
      [("3.").data, ("3").data, ("iii.").data, ("iii").data]
  else if name = "conclusion" then
    tryNums [kwLit (("conclusions").data), kwLit (("conclusion").data),
        kwLit (("discussion").data)]
      [("4.").data, ("4").data, ("iv.").data, ("iv").data,
        ("5.").data, ("5").data, ("v.").data, ("v").data]
  else if name = "references" then
    tryKws [kwLit (("references").data), kwLit (("bibliography").data),
      kwLit (("literature cited").data)]
  else fun _ => none

/-- Scan for the `(?:\s|...)` branch of `(?:^|\s)`: at each position
whose character is whitespace, consume it and try the body; the match
start is the position of that whitespace character. -/
def searchHeaderGo (body : PyStr → Option PyStr) (total : Nat) :
    PyStr → Nat → Option (Nat × Nat)
  | [], _ => none
  | c :: t, pos =>
      if isPyWS c then
        match body t with
        | some rest => some (pos, total - rest.length)
        | none => searchHeaderGo body total t (pos + 1)
      else searchHeaderGo body total t (pos + 1)

/-- `re.search` of a header pattern: the zero-width `^` branch at
position 0 first, then the whitespace branch at each position in order
(leftmost match).  Returns `(match.start(), match.end())`. -/
def searchHeader (body : PyStr → Option PyStr) (text : PyStr) :
    Option (Nat × Nat) :=
  match body text with
  | some rest => some (0, text.length - rest.length)
  | none => searchHeaderGo body text.length text 0

/-- The header dictionary in its Python insertion order (line 96). -/
def headerNames : List String :=
  ["abstract", "introduction", "methods", "results", "conclusion", "references"]

/-- The slicing loop of `_extract_sections` (lines 116-127): for each
found header (sorted by match start), the section runs from the end of a
re-search of the same header inside `text[start:start+100]` (falling
back to `start` if that window search fails) to the next header's start;
empty contents are skipped. -/
def buildSectionsGo (text : PyStr) : List (String × Nat) → List (String × PyStr)
  | [] => []
  | (name, start) :: rest =>
      let end_idx := match rest with
        | (_, s2) :: _ => s2
        | [] => text.length
      let header_end := match searchHeader (headerBody name)
          (pySlice text start (start + 100)) with
        | some se => start + se.2
        | none => start
      let content := pyStrip (pySlice text header_end end_idx)
      if content.isEmpty then buildSectionsGo text rest
      else (name, content) :: buildSectionsGo text rest

/-- `_extract_sections(text)` (lines 83-127): search every header
pattern, sort the found `(name, start)` pairs by start (Python's stable
sort), then slice. -/
def extractSections (text : PyStr) : List (String × PyStr) :=
  buildSectionsGo text
    (List.insertionSort (fun a b : String × Nat => a.2 ≤ b.2)
      (headerNames.filterMap (fun name =>
        (searchHeader (headerBody name) text).map (fun se => (name, se.1)))))

/-- Python truthiness of an optional string (`if abstract:` and
`if not data.get('abstract')`). -/
def pyTruthy : Option PyStr → Bool
  | none => false
  | some s => !s.isEmpty

/-- First-match association lookup (`sections[name]` / `name in
sections`; the keys produced by `extractSections` are unique). -/
def lookupSec (sections : List (String × PyStr)) (k : String) : Option PyStr :=
  (sections.find? (fun p => p.1 == k)).map (fun p => p.2)

/-- `_build_focus_text(sections, abstract, full_text)` (lines 129-164):
abstract, conclusion, results, methods (first 2000 chars + "..."),
introduction (first 1000 chars + "..."), joined by blank lines; full
text verbatim when no part is present. -/
def buildFocusText (sections : List (String × PyStr)) (abstract : Option PyStr)
    (full_text : PyStr) : PyStr :=
  let parts :=
    (if pyTruthy abstract then [abstract.getD []] else []) ++
    (match lookupSec sections "conclusion" with
      | some c => [c] | none => []) ++
    (match lookupSec sections "results" with
      | some c => [c] | none => []) ++
    (match lookupSec sections "methods" with
      | some c => [c.take 2000 ++ ("...").data] | none => []) ++
    (match lookupSec sections "introduction" with
      | some c => [c.take 1000 ++ ("...").data] | none => [])
  if parts.isEmpty then full_text
  else List.intercalate (('\n') :: ('\n') :: []) parts

/-- The input record of `preprocess` (the dict produced by `ingest()`):
only `text` and `abstract` are read or written by `preprocess`; every
other field (source, paper_id, title, meta, ...) is abstracted as
`rest`. -/
structure IngestData (α : Type) where
  text : Option PyStr
  abstract : Option PyStr
  rest : α
deriving DecidableEq

/-- The output dict of `preprocess` (lines 37-48): the carried input
fields plus the freshly computed ones. -/
structure PreprocessOut (α : Type) where
  data : IngestData α
  clean_text : PyStr
  sections : List (String × PyStr)
  focus_text : PyStr
  chunks : List PyStr
  raw_len : Nat
  clean_len : Nat
  num_chunks : Nat

/-- `preprocess(data)` (lines 3-48).  The returned pair is
`(the caller's record after the call, the output dict)`: Python dicts
are mutable and line 27 (`data['abstract'] = sections['abstract']`)
writes into the caller's record whenever the incoming abstract is falsy
and the sectioner found one; the explicit state passing makes that write
visible. -/
def preprocess {α : Type} (d : IngestData α) : IngestData α × PreprocessOut α :=
  let raw_text := d.text.getD []
  let clean := cleanText raw_text
  let sections := extractSections clean
  let d' :=
    if !(pyTruthy d.abstract) && (lookupSec sections "abstract").isSome then
      { d with abstract := lookupSec sections "abstract" }
    else d
  let focus := buildFocusText sections d'.abstract clean
  let chunks := Chunker.chunkText focus 3000 200
  (d',
    { data := d', clean_text := clean, sections := sections,
      focus_text := focus, chunks := chunks,
      raw_len := raw_text.length, clean_len := clean.length,
      num_chunks := chunks.length })

end Ingestion


/-! ## Backend normalizer, sectioner and focus builder
From `Backend/src/preprocess.py`: `_remove_references_tail` (lines
94-102), `_find_sections` (lines 125-165) and `build_focus_text` (lines
243-287).  `_CUT_AFTER_RE = ^\s*(references|bibliography)\s*$` with
`re.IGNORECASE | re.MULTILINE` is implemented concretely;
`_SECTION_HEADING_RE.finditer` is an oracle input (the heading `hits`),
since the property proved about `_find_sections` holds for every
possible match list. -/

namespace Backend

/-- `\s*$` under MULTILINE after the keyword: scanning the whitespace
run, `$` matches before a newline or at the end of the text. -/
def wsThenEOL : PyStr → Bool
  | [] => true
  | c :: t => if c = '\n' then true else if isPyWS c then wsThenEOL t else false

/-- The body of `_CUT_AFTER_RE` at a line start: `\s*` (greedy,
deterministic since the keywords start with letters), the keyword
alternation (case-insensitive), then `\s*$`. -/
def cutMatchAt (rest : PyStr) : Bool :=
  (Ingestion.ciHasPre (rest.drop (rest.takeWhile isPyWS).length)
      (("references").data) &&
    wsThenEOL ((rest.drop (rest.takeWhile isPyWS).length).drop 10)) ||
  (Ingestion.ciHasPre (rest.drop (rest.takeWhile isPyWS).length)
      (("bibliography").data) &&
    wsThenEOL ((rest.drop (rest.takeWhile isPyWS).length).drop 12))

/-- `re.search` of `_CUT_AFTER_RE` over the whole text: `^` under
MULTILINE anchors at position 0 and after every newline; the leftmost
such line start with a matching body wins. -/
def cutSearchFrom : PyStr → Nat → Bool → Option Nat
  | [], _, _ => none
  | c :: t, pos, atLineStart =>
      if atLineStart && cutMatchAt (c :: t) then some pos
      else cutSearchFrom t (pos + 1) (c = '\n')

/-- `_remove_references_tail(text)`: cut everything from the first
`references`/`bibliography` heading line onward, searching the whole
document; returns `(trimmed_text, did_cut)`. -/
def removeReferencesTail (text : PyStr) : PyStr × Bool :=
  match cutSearchFrom text 0 true with
  | none => (text, false)
  | some i => (pyStrip (text.take i), true)

/-- The name canonicalization dictionary of `_find_sections`
(lines 135-143). -/
def normalizeSectionName (n : String) : String :=
  if n = "methods" then "method"
  else if n = "methodology" then "method"
  else if n = "experiments" then "experiments"
  else if n = "results" then "results"
  else if n = "conclusions" then "conclusion"
  else if n = "acknowledgements" then "acknowledgments"
  else if n = "bibliography" then "references"
  else n

/-- The slicing loop of `_find_sections` (lines 153-165) over the sorted
hits: content runs from the end of a heading match to the start of the
next; contents under 200 characters are discarded; the first occurrence
of a canonical name wins. -/
def findSectionsGo (text : PyStr) :
    List (Nat × Nat × String) → List (String × PyStr) → List (String × PyStr)
  | [], acc => acc
  | (_, e, name) :: rest, acc =>
      let next_start := match rest with
        | (s2, _, _) :: _ => s2
        | [] => text.length
      let content := pyStrip (pySlice text e next_start)
      if content.length < 200 then findSectionsGo text rest acc
      else if (acc.find? (fun p => p.1 == name)).isSome then
        findSectionsGo text rest acc
      else findSectionsGo text rest (acc ++ [(name, content)])

/-- `_find_sections(text)` given the heading matches
`hits = [(match.start, match.end, lowercased group 1), ...]` found by the
external regex engine for `_SECTION_HEADING_RE`: canonicalize the names,
sort by position (stable), slice and filter. -/
def findSections (text : PyStr) (hits : List (Nat × Nat × String)) :
    List (String × PyStr) :=
  findSectionsGo text
    (List.insertionSort (fun a b : Nat × Nat × String => a.1 ≤ b.1)
      (hits.map (fun h => (h.1, h.2.1, normalizeSectionName h.2.2))))
    []

/-- One `add_if(name, label)` part of `build_focus_text`. -/
def addIf (sections : List (String × PyStr)) (name : String)
    (label : PyStr) : List PyStr :=
  match Ingestion.lookupSec sections name with
  | some c => [label ++ ('\n') :: pyStrip c]
  | none => []

/-- `build_focus_text(abstract, sections, clean_text, max_chars)`
(lines 243-287): labelled parts in fixed priority order (`METHOD`, or
else `APPROACH` then `MODEL`), blank-line joined and stripped; the full
clean text verbatim when no part exists; finally the hard
`max_chars` cap. -/
def buildFocusText (abstract : Option PyStr)
    (sections : List (String × PyStr)) (clean_text : PyStr)
    (max_chars : Nat) : PyStr :=
  let parts :=
    (if Ingestion.pyTruthy abstract then
      [("ABSTRACT\n").data ++ pyStrip (abstract.getD [])] else []) ++
    addIf sections "introduction" (("INTRODUCTION").data) ++
    (if (Ingestion.lookupSec sections "method").isSome then
      addIf sections "method" (("METHOD").data)
    else
      addIf sections "approach" (("APPROACH").data) ++
        addIf sections "model" (("MODEL").data)) ++
    addIf sections "experiments" (("EXPERIMENTS").data) ++
    addIf sections "results" (("RESULTS").data) ++
    addIf sections "discussion" (("DISCUSSION").data) ++
    addIf sections "analysis" (("ANALYSIS").data) ++
    addIf sections "conclusion" (("CONCLUSION").data)
  let focus :=
    if parts.isEmpty then clean_text
    else pyStrip (List.intercalate (('\n') :: ('\n') :: []) parts)
  if max_chars < focus.length then focus.take max_chars else focus

end Backend

/-! ## Theorems about the chunker -/

namespace Chunker

/-- Strict progress: the next start always exceeds the current one. -/
theorem nextStart_progress (chunk_size overlap start endv : Nat) :
    start < nextStart chunk_size overlap start endv := by
  unfold nextStart
  split <;> omega

/-- Strict progress of the loop body. -/
theorem chunkStep_progress (text : PyStr) (chunk_size overlap start : Nat) :
    start < (chunkStep text chunk_size overlap start).2 :=
  nextStart_progress _ _ _ _

/-- Once the start index has reached the end of the text the loop emits
nothing, whatever the fuel. -/
theorem chunkLoop_stop (text : PyStr) (chunk_size overlap : Nat)
    (fuel start : Nat) (h : text.length ≤ start) :
    chunkLoop text chunk_size overlap fuel start = [] := by
  cases fuel with
  | zero => rfl
  | succ fuel => simp [chunkLoop, Nat.not_lt.mpr h]

/-- Any fuel of at least `text.length - start` yields the same span list:
the fueled loop is the source's `while` loop. -/
theorem chunkLoop_fuel_invariant (text : PyStr) (chunk_size overlap : Nat) :
    ∀ fuel fuel' start, text.length - start ≤ fuel →
      text.length - start ≤ fuel' →
      chunkLoop text chunk_size overlap fuel start =
        chunkLoop text chunk_size overlap fuel' start := by
  intro fuel
  induction fuel with
  | zero =>
      intro fuel' start h _
      rw [chunkLoop_stop text chunk_size overlap 0 start (by omega),
        chunkLoop_stop text chunk_size overlap fuel' start (by omega)]
  | succ fuel ih =>
      intro fuel' start h h'
      by_cases hs : start < text.length
      · cases fuel' with
        | zero => omega
        | succ fuel' =>
            have hp := chunkStep_progress text chunk_size overlap start
            simp only [chunkLoop, if_pos hs]
            rw [ih fuel' _ (by omega) (by omega)]
      · rw [chunkLoop_stop text chunk_size overlap _ start (by omega),
          chunkLoop_stop text chunk_size overlap fuel' start (by omega)]

/-- A found space index lies in the searched range. -/
theorem rfindSpace_bounds (s : PyStr) :
    ∀ a b j, rfindSpace s a b = some j → a ≤ j ∧ j < b := by
  intro a b
  induction b with
  | zero => intro j h; simp [rfindSpace] at h
  | succ b ih =>
      intro j h
      rw [rfindSpace] at h
      by_cases hab : a ≤ b
      · rw [if_pos hab] at h
        split at h
        · cases h; omega
        · have := ih j h; omega
      · rw [if_neg hab] at h; cases h

/-- Case analysis of the window end under a valid configuration
(`overlap < chunk_size`): either the window reaches the end of the text,
or it is the full `start + chunk_size` window, or it was snapped back to
a space no earlier than `start + overlap`. -/
theorem chunkEnd_cases (text : PyStr) (chunk_size overlap start : Nat)
    (hov : overlap < chunk_size) :
    (chunkEnd text chunk_size overlap start = text.length ∧
      text.length ≤ start + chunk_size) ∨
    (chunkEnd text chunk_size overlap start = start + chunk_size ∧
      start + chunk_size < text.length) ∨
    (start + overlap ≤ chunkEnd text chunk_size overlap start ∧
      chunkEnd text chunk_size overlap start < start + chunk_size ∧
      start + chunk_size < text.length) := by
  unfold chunkEnd
  by_cases hlen : start + chunk_size < text.length
  · have hmin : min (start + chunk_size) text.length = start + chunk_size := by omega
    rw [hmin]
    have hcond : start + chunk_size < text.length ∧ start + overlap < start + chunk_size := by
      omega
    rw [if_pos hcond]
    cases hrf : rfindSpace text (start + overlap) (start + chunk_size) with
    | none => exact Or.inr (Or.inl ⟨rfl, hlen⟩)
    | some j =>
        have := rfindSpace_bounds text _ _ _ hrf
        simp only [Option.getD_some]
        omega
  · have hmin : min (start + chunk_size) text.length = text.length := by omega
    rw [hmin]
    have hcond : ¬ (text.length < text.length ∧ start + overlap < text.length) := by omega
    rw [if_neg hcond]
    omega

/-- The window end never exceeds `start + chunk_size`. -/
theorem chunkEnd_le (text : PyStr) (chunk_size overlap start : Nat) :
    chunkEnd text chunk_size overlap start ≤ start + chunk_size := by
  unfold chunkEnd
  split
  · cases hrf : rfindSpace text (start + overlap)
        (min (start + chunk_size) text.length) with
    | none => simp only [Option.getD_none]; omega
    | some j =>
        have := rfindSpace_bounds text _ _ _ hrf
        simp only [Option.getD_some]
        omega
  · omega

/-- The window end is at least the starting position. -/
theorem chunkEnd_ge (text : PyStr) (chunk_size overlap start : Nat)
    (hov : overlap < chunk_size) (hs : start < text.length) :
    start ≤ chunkEnd text chunk_size overlap start := by
  rcases chunkEnd_cases text chunk_size overlap start hov with h | h | h <;> omega

/-- Under `overlap < chunk_size ≤ 2*overlap` the next start never jumps
past the current window end, unless the window already reached the end of
the text: this is what rules out coverage gaps. -/
theorem nextStart_no_gap (text : PyStr) (chunk_size overlap start : Nat)
    (hov : overlap < chunk_size) (h2 : chunk_size ≤ 2 * overlap) :
    nextStart chunk_size overlap start (chunkEnd text chunk_size overlap start) ≤
      chunkEnd text chunk_size overlap start ∨
    text.length ≤ chunkEnd text chunk_size overlap start := by
  unfold nextStart
  rcases chunkEnd_cases text chunk_size overlap start hov with h | h | h
  · right; omega
  · left
    rw [if_neg (by omega)]
    omega
  · left
    split <;> omega

/-- The loop runs at most `text.length - start` iterations: one span per
iteration, each strictly advancing the start. -/
theorem chunkLoop_length_le (text : PyStr) (chunk_size overlap : Nat) :
    ∀ fuel start,
      (chunkLoop text chunk_size overlap fuel start).length ≤
        text.length - start := by
  intro fuel
  induction fuel with
  | zero => intro start; simp [chunkLoop]
  | succ fuel ih =>
      intro start
      by_cases hs : start < text.length
      · have hp := chunkStep_progress text chunk_size overlap start
        have := ih (chunkStep text chunk_size overlap start).2
        simp only [chunkLoop, if_pos hs, List.length_cons]
        omega
      · rw [chunkLoop_stop text chunk_size overlap _ start (by omega)]
        simp

/-- Every span emitted by the loop is a window of at most `chunk_size`
characters starting no earlier than the loop's entry start. -/
theorem chunkLoop_span_bound (text : PyStr) (chunk_size overlap : Nat) :
    ∀ fuel start se, se ∈ chunkLoop text chunk_size overlap fuel start →
      se.2 ≤ se.1 + chunk_size := by
  intro fuel
  induction fuel with
  | zero => intro start se h; simp [chunkLoop] at h
  | succ fuel ih =>
      intro start se h
      by_cases hs : start < text.length
      · simp only [chunkLoop, if_pos hs, List.mem_cons] at h
        rcases h with h | h
        · subst h
          exact chunkEnd_le text chunk_size overlap start
        · exact ih _ se h
      · rw [chunkLoop_stop text chunk_size overlap _ start (by omega)] at h
        simp at h

/-- Coverage of the loop: with `overlap < chunk_size ≤ 2*overlap`, every
position from the loop's entry start to the end of the text lies inside
some emitted window. -/
theorem chunkLoop_covers (text : PyStr) (chunk_size overlap : Nat)
    (hov : overlap < chunk_size) (h2 : chunk_size ≤ 2 * overlap) :
    ∀ fuel start, text.length - start ≤ fuel →
      ∀ i, start ≤ i → i < text.length →
        ∃ se ∈ chunkLoop text chunk_size overlap fuel start,
          se.1 ≤ i ∧ i < se.2 := by
  intro fuel
  induction fuel with
  | zero => intro start h i h1 h2'; omega
  | succ fuel ih =>
      intro start h i hi1 hi2
      have hs : start < text.length := by omega
      simp only [chunkLoop, if_pos hs]
      by_cases hcov : i < (chunkStep text chunk_size overlap start).1
      · exact ⟨(start, (chunkStep text chunk_size overlap start).1),
          by simp, hi1, hcov⟩
      · have hp := chunkStep_progress text chunk_size overlap start
        rcases nextStart_no_gap text chunk_size overlap start hov h2 with hle | hend
        · have hrec := ih (chunkStep text chunk_size overlap start).2 (by omega) i
            (by
              have : (chunkStep text chunk_size overlap start).2 ≤
                  (chunkStep text chunk_size overlap start).1 := hle
              omega)
            hi2
          rcases hrec with ⟨se, hmem, hcov'⟩
          exact ⟨se, List.mem_cons_of_mem _ hmem, hcov'⟩
        · exact absurd hi2 (by
            have : (chunkStep text chunk_size overlap start).1 =
                chunkEnd text chunk_size overlap start := rfl
            omega)

end Chunker

open Chunker

/-- **C1**: for every input text and every configuration with
`chunk_size ≥ 1` and `overlap ≥ 0` — including the degenerate case
`overlap ≥ chunk_size` — the sliding character-window chunker makes
strict progress: each iteration's next start strictly exceeds the current
start; whenever the computed `end - overlap` would not exceed the current
start it is forced to `start + max(1, chunk_size - overlap)`; and the
number of emitted windows is bounded (at most `max 1 (text.length)`), so
the loop terminates. -/
theorem chunkText_progress_invariant (text : PyStr)
    (chunk_size overlap start : Nat) (hcs : 1 ≤ chunk_size) :
    start < (chunkStep text chunk_size overlap start).2 ∧
    ((chunkStep text chunk_size overlap start).1 - overlap ≤ start →
      (chunkStep text chunk_size overlap start).2 =
        start + max 1 (chunk_size - overlap)) ∧
    (chunkSpans text chunk_size overlap).length ≤ max 1 text.length := by
  refine ⟨chunkStep_progress text chunk_size overlap start, ?_, ?_⟩
  · intro h
    show nextStart chunk_size overlap start
        (chunkEnd text chunk_size overlap start) = _
    unfold nextStart
    exact if_pos h
  · unfold chunkSpans
    split
    · simp
    · have := chunkLoop_length_le text chunk_size overlap text.length 0
      omega

/-- Witness for C1 at a concrete degenerate configuration
(`chunk_size = 3`, `overlap = 5 ≥ chunk_size`). -/
theorem chunkText_progress_invariant_witness :
    (1 ≤ 3 ∧
      0 < (chunkStep ("word word word").data 3 5 0).2 ∧
      ((chunkStep ("word word word").data 3 5 0).1 - 5 ≤ 0 →
        (chunkStep ("word word word").data 3 5 0).2 = 0 + max 1 (3 - 5)) ∧
      (chunkSpans ("word word word").data 3 5).length ≤
        max 1 (("word word word").data).length) :=
  ⟨by decide, chunkText_progress_invariant ("word word word").data 3 5 0 (by decide)⟩

/-- **C2, counterexample**: with `text = "ab cdefghijklmnopqrst"`,
`chunk_size = 10`, `overlap = 2` (a valid configuration,
`0 ≤ overlap < chunk_size`), the space at index 2 snaps the first window
back to `[0, 2)` and the forced advance jumps to index 8, so the
characters at indices 3-7 (`"cdefg"`) appear in no chunk: the letter `c`
is absent from every chunk even though it occurs in the input. -/
theorem chunkText_coverage_counterexample :
    (2 < 10 ∧ 3 < (("ab cdefghijklmnopqrst").data).length) ∧
    (¬ ∃ se ∈ chunkSpans ("ab cdefghijklmnopqrst").data 10 2,
        se.1 ≤ 3 ∧ 3 < se.2) ∧
    (∀ ch ∈ chunkText ("ab cdefghijklmnopqrst").data 10 2, 'c' ∉ ch) := by
  decide

/-- **C2, amended**: for `0 ≤ overlap < chunk_size` every chunk has length
at most `chunk_size`; the chunks in order cover every character position
of the input **provided additionally** `chunk_size ≤ 2*overlap` (when
`chunk_size > 2*overlap`, a space snapped at exactly `start + overlap`
makes the forced advance skip characters, see the counterexample). -/
theorem chunkText_length_bound_and_coverage (text : PyStr)
    (chunk_size overlap : Nat) (hov : overlap < chunk_size) :
    (∀ c ∈ chunkText text chunk_size overlap, c.length ≤ chunk_size) ∧
    (chunk_size ≤ 2 * overlap →
      ∀ i < text.length,
        ∃ se ∈ chunkSpans text chunk_size overlap, se.1 ≤ i ∧ i < se.2) := by
  constructor
  · intro c hc
    rcases List.mem_map.1 hc with ⟨se, hse, rfl⟩
    have hb : se.2 ≤ se.1 + chunk_size := by
      unfold chunkSpans at hse
      split at hse
      · rename_i hlen
        simp only [List.mem_singleton] at hse
        subst hse
        simpa using hlen
      · exact chunkLoop_span_bound text chunk_size overlap _ _ se hse
    simp only [pySlice, List.length_take, List.length_drop]
    omega
  · intro h2 i hi
    unfold chunkSpans
    split
    · exact ⟨(0, text.length), by simp, by omega, hi⟩
    · exact chunkLoop_covers text chunk_size overlap hov h2 text.length 0
        (by omega) i (by omega) hi

/-- Witness for the amended C2 at a concrete valid configuration with
`overlap < chunk_size ≤ 2*overlap`. -/
theorem chunkText_length_bound_and_coverage_witness :
    (3 < 4 ∧
      ((∀ c ∈ chunkText ("abcde fghij klmno").data 4 3, c.length ≤ 4) ∧
        (4 ≤ 2 * 3 →
          ∀ i < (("abcde fghij klmno").data).length,
            ∃ se ∈ chunkSpans ("abcde fghij klmno").data 4 3,
              se.1 ≤ i ∧ i < se.2))) :=
  ⟨by decide,
    chunkText_length_bound_and_coverage ("abcde fghij klmno").data 4 3 (by decide)⟩

/-! ## Theorems about the extractive ranker -/

namespace Extractive

/-- Mapping a strictly increasing, in-range index list through `getD`
yields a sublist: the core of order preservation. -/
theorem map_getD_sublist {α : Type} (l : List α) (d : α) :
    ∀ is : List Nat, is.Pairwise (· < ·) → (∀ i ∈ is, i < l.length) →
      List.Sublist (is.map (fun i => l.getD i d)) l := by
  induction l with
  | nil =>
      intro is _ hb
      cases is with
      | nil => simp
      | cons i t => exact absurd (hb i (List.mem_cons_self _ _)) (by simp)
  | cons a l ih =>
      intro is hp hb
      have shift : ∀ js : List Nat, (∀ j ∈ js, 1 ≤ j) →
          js.map (fun j => (a :: l).getD j d) =
            (js.map (fun j => j - 1)).map (fun j => l.getD j d) := by
        intro js hjs
        rw [List.map_map]
        apply List.map_congr_left
        intro j hj
        have h1 := hjs j hj
        cases j with
        | zero => omega
        | succ j => simp
      have step : ∀ js : List Nat, js.Pairwise (· < ·) →
          (∀ j ∈ js, j < l.length + 1) → (∀ j ∈ js, 1 ≤ j) →
          List.Sublist (js.map (fun j => (a :: l).getD j d)) l := by
        intro js hjp hjb hj1
        rw [shift js hj1]
        apply ih
        · refine List.pairwise_map.2 (hjp.imp_of_mem ?_)
          intro x y hx hy hxy
          have := hj1 x hx
          omega
        · intro j hj
          rcases List.mem_map.1 hj with ⟨j', hj', rfl⟩
          have := hjb j' hj'
          have := hj1 j' hj'
          omega
      cases is with
      | nil => simp
      | cons i t =>
          have hpt : t.Pairwise (· < ·) := (List.pairwise_cons.1 hp).2
          have hti : ∀ j ∈ t, i < j := (List.pairwise_cons.1 hp).1
          by_cases hi : i = 0
          · subst hi
            have ht1 : ∀ j ∈ t, 1 ≤ j := fun j hj => by have := hti j hj; omega
            simp only [List.map_cons, List.getD_cons_zero]
            exact List.Sublist.cons₂ a
              (step t hpt (fun j hj => by simpa using hb j (List.mem_cons_of_mem _ hj)) ht1)
          · have hall : ∀ j ∈ i :: t, 1 ≤ j := by
              intro j hj
              rcases List.mem_cons.1 hj with rfl | hj
              · omega
              · have := hti j hj; omega
            exact List.Sublist.cons a
              (step (i :: t) hp (fun j hj => by simpa using hb j hj) hall)

/-- The surviving original indices form a sublist of `range n`. -/
theorem validIndices_sublist (sentences : List PyStr) :
    List.Sublist (validIndices sentences) (List.range sentences.length) := by
  unfold validIndices validPairs
  have h2 := List.Sublist.map Prod.fst
    (List.filter_sublist (l := sentences.enum) (p := fun p => sentenceEligible p.2))
  rwa [List.enum_map_fst] at h2

/-- The surviving original indices are strictly increasing. -/
theorem validIndices_pairwise (sentences : List PyStr) :
    (validIndices sentences).Pairwise (· < ·) :=
  (List.pairwise_lt_range _).sublist (validIndices_sublist sentences)

/-- Every surviving original index addresses a real sentence. -/
theorem validIndices_mem_lt (sentences : List PyStr) (i : Nat)
    (h : i ∈ validIndices sentences) : i < sentences.length :=
  List.mem_range.1 ((validIndices_sublist sentences).subset h)

/-- `valid_indices` and `clean_sentences` have the same length. -/
theorem validIndices_length (sentences : List PyStr) :
    (validIndices sentences).length = (cleanSentences sentences).length := by
  simp [validIndices, cleanSentences]

/-- `argsort` is a permutation of the index range. -/
theorem argsortAsc_perm (v : List Int) :
    List.Perm (argsortAsc v) (List.range v.length) := by
  unfold argsortAsc
  have hm := (List.perm_insertionSort
    (fun p q : Nat × Int => p.2 < q.2 ∨ (p.2 = q.2 ∧ p.1 ≤ q.1)) v.enum).map Prod.fst
  rwa [List.enum_map_fst] at hm

/-- The local top-index list (either `range` or the reversed tail of the
argsort) is duplicate-free, within range of `valid_indices`, and — in the
`len(clean) ≤ k` branch and the slice branch alike — its length is as the
source computes. -/
theorem topLocal_nodup_bounds (sentences : List PyStr) (k : Nat) (v : List Int)
    (hlen : v.length = (cleanSentences sentences).length) :
    (if (cleanSentences sentences).length ≤ k then
        List.range (cleanSentences sentences).length
      else (pyLastSlice (argsortAsc v) k).reverse).Nodup ∧
    (∀ i ∈ (if (cleanSentences sentences).length ≤ k then
        List.range (cleanSentences sentences).length
      else (pyLastSlice (argsortAsc v) k).reverse),
      i < (validIndices sentences).length) := by
  split
  · refine ⟨List.nodup_range _, ?_⟩
    intro i hi
    rw [validIndices_length]
    exact List.mem_range.1 hi
  · have hnd : (argsortAsc v).Nodup :=
      ((argsortAsc_perm v).nodup_iff).2 (List.nodup_range _)
    have hsl : List.Sublist (pyLastSlice (argsortAsc v) k) (argsortAsc v) := by
      unfold pyLastSlice
      split
      · exact List.Sublist.refl _
      · exact List.drop_sublist _ _
    constructor
    · rw [List.nodup_reverse]
      exact hnd.sublist hsl
    · intro i hi
      rw [List.mem_reverse] at hi
      have : i ∈ argsortAsc v := hsl.subset hi
      have := List.mem_range.1 ((argsortAsc_perm v).subset this)
      rw [validIndices_length]
      omega

/-- **C4**: for every sentence list, every `num_sentences` and every
score assignment the vectorizer may produce (subject only to its contract
of one score per corpus sentence), the sentences selected by
`summarize_extractive` form a sublist of the input sentences: they are
returned in the same relative order in which they occur in the source,
regardless of score magnitude or rank. -/
theorem extractive_order_preservation (sentences : List PyStr) (k : Nat)
    (vect : List PyStr → Option (List Int))
    (hvect : ∀ cs v, vect cs = some v → v.length = cs.length) :
    List.Sublist ((summarizeExtractive sentences k vect).2) sentences := by
  unfold summarizeExtractive
  by_cases h1 : sentences.isEmpty
  · rw [if_pos h1]; exact List.nil_sublist _
  rw [if_neg h1]
  by_cases h2 : (cleanSentences sentences).isEmpty
  · rw [if_pos h2]; exact List.nil_sublist _
  rw [if_neg h2]
  cases hv : vect (cleanSentences sentences) with
  | none => exact List.take_sublist _ _
  | some v =>
      have hlen : v.length = (cleanSentences sentences).length :=
        hvect _ v hv
      dsimp only
      apply map_getD_sublist
      · -- the sorted original indices are strictly increasing
        obtain ⟨hnd, hbd⟩ := topLocal_nodup_bounds sentences k v hlen
        have hmapnd :
            ((if (cleanSentences sentences).length ≤ k then
                List.range (cleanSentences sentences).length
              else (pyLastSlice (argsortAsc v) k).reverse).map
              (fun i => (validIndices sentences).getD i 0)).Nodup := by
          refine hnd.map_on ?_
          intro x hx y hy hxy
          have hxl := hbd x hx
          have hyl := hbd y hy
          rw [List.getD_eq_get _ _ hxl, List.getD_eq_get _ _ hyl] at hxy
          have hsm := List.Sorted.get_strictMono (validIndices_pairwise sentences)
          have := hsm.injective hxy
          exact congrArg Fin.val this
        have hsorted := List.sorted_insertionSort (· ≤ ·)
          ((if (cleanSentences sentences).length ≤ k then
              List.range (cleanSentences sentences).length
            else (pyLastSlice (argsortAsc v) k).reverse).map
            (fun i => (validIndices sentences).getD i 0))
        have hnds : (List.insertionSort (· ≤ ·)
            ((if (cleanSentences sentences).length ≤ k then
                List.range (cleanSentences sentences).length
              else (pyLastSlice (argsortAsc v) k).reverse).map
              (fun i => (validIndices sentences).getD i 0))).Nodup :=
          ((List.perm_insertionSort _ _).nodup_iff).2 hmapnd
        exact (hsorted.and hnds).imp (fun h => lt_of_le_of_ne h.1 h.2)
      · intro i hi
        have hi' := (List.perm_insertionSort (· ≤ ·) _).subset hi
        rcases List.mem_map.1 hi' with ⟨j, hj, rfl⟩
        obtain ⟨hnd, hbd⟩ := topLocal_nodup_bounds sentences k v hlen
        have hjl := hbd j hj
        rw [List.getD_eq_get _ _ hjl]
        exact validIndices_mem_lt sentences _ (List.get_mem _ _ _)

end Extractive

open Extractive

/-- Witness for C4 at a concrete two-sentence input with `k = 1` and a
constant score vectorizer. -/
theorem extractive_order_preservation_witness :
    List.Sublist
      ((summarizeExtractive
        [("summarization systems handle research documents gracefully").data,
          ("another perfectly ordinary sentence about evaluation").data]
        1 (fun cs => some (cs.map (fun _ => (0 : Int))))).2)
      [("summarization systems handle research documents gracefully").data,
        ("another perfectly ordinary sentence about evaluation").data] :=
  extractive_order_preservation _ 1 _
    (by intro cs v h; injection h with h; subst h; simp)

/-- **C5, counterexample**: at `num_sentences = 0` with a one-sentence
eligible input (and a vectorizer that succeeds, as sklearn does on this
corpus), the ranker returns 1 sentence, not
`min(0, eligible) = 0`: Python's `argsort()[-0:]` slice is the whole
array, so the claim "returns exactly min(k, total eligible)" fails. -/
theorem extractive_boundedness_counterexample :
    ((summarizeExtractive
        [("summarization systems handle research documents gracefully").data]
        0 (fun cs => some (cs.map (fun _ => (0 : Int))))).2).length = 1 ∧
    min 0 ((cleanSentences
        [("summarization systems handle research documents gracefully").data]).length) = 0 := by
  constructor
  · rfl
  · rfl

/-- **C5, amended**: for every sentence list and every
`num_sentences ≥ 1`, when the TF-IDF vectorization succeeds (returning
one score per filtered sentence, as sklearn does), the ranker returns at
most `num_sentences` sentences and exactly
`min(num_sentences, eligible)` of them, where `eligible` is the number of
sentences surviving the filters.  (Excluded by the counterexamples: at
`num_sentences = 0` the `[-0:]` slice selects everything, and in the
empty-vocabulary fallback the count is `min(k, total raw sentences)`
instead.) -/
theorem extractive_boundedness_amended (sentences : List PyStr) (k : Nat)
    (vect : List PyStr → Option (List Int)) (v : List Int)
    (hk : 1 ≤ k) (hv : vect (cleanSentences sentences) = some v)
    (hlen : v.length = (cleanSentences sentences).length) :
    ((summarizeExtractive sentences k vect).2).length ≤ k ∧
    ((summarizeExtractive sentences k vect).2).length =
      min k (cleanSentences sentences).length := by
  suffices h : ((summarizeExtractive sentences k vect).2).length =
      min k (cleanSentences sentences).length by
    exact ⟨h ▸ Nat.min_le_left _ _, h⟩
  unfold summarizeExtractive
  by_cases h1 : sentences.isEmpty
  · rw [if_pos h1]
    have hse : sentences = [] := List.isEmpty_iff.1 h1
    subst hse
    simp [cleanSentences, validPairs]
  rw [if_neg h1]
  by_cases h2 : (cleanSentences sentences).isEmpty
  · rw [if_pos h2]
    have : cleanSentences sentences = [] := List.isEmpty_iff.1 h2
    simp [this]
  rw [if_neg h2, hv]
  dsimp only
  rw [List.length_map, (List.perm_insertionSort _ _).length_eq, List.length_map]
  split
  · rw [List.length_range]
    omega
  · rw [List.length_reverse]
    unfold pyLastSlice
    rw [if_neg (by omega), List.length_drop]
    have harg : (argsortAsc v).length = v.length :=
      (argsortAsc_perm v).length_eq.trans (List.length_range _)
    rw [harg, hlen]
    omega

/-- Witness for the amended C5: two eligible sentences, `k = 1`, constant
scores. -/
theorem extractive_boundedness_amended_witness :
    (1 ≤ 1 ∧
      ((summarizeExtractive
        [("summarization systems handle research documents gracefully").data,
          ("another perfectly ordinary sentence about evaluation").data]
        1 (fun cs => some (cs.map (fun _ => (0 : Int))))).2).length ≤ 1 ∧
      ((summarizeExtractive
        [("summarization systems handle research documents gracefully").data,
          ("another perfectly ordinary sentence about evaluation").data]
        1 (fun cs => some (cs.map (fun _ => (0 : Int))))).2).length =
        min 1 ((cleanSentences
          [("summarization systems handle research documents gracefully").data,
            ("another perfectly ordinary sentence about evaluation").data]).length)) :=
  ⟨by decide,
    extractive_boundedness_amended _ 1 _ _ (by decide) rfl (by simp)⟩

/-- **C6**: whenever the filtered corpus is nonempty but the vectorizer
fails with its empty-vocabulary `ValueError` (e.g. all-stopword text),
`summarize_extractive` does not raise: it returns the first
`num_sentences` raw sentences verbatim, joined by spaces.  (Totality of
the embedded function is the no-exception guarantee; the fallback output
is exactly `sentences[:num_sentences]`.) -/
theorem extractive_empty_vocab_fallback (sentences : List PyStr) (k : Nat)
    (vect : List PyStr → Option (List Int))
    (hne : cleanSentences sentences ≠ [])
    (hv : vect (cleanSentences sentences) = none) :
    summarizeExtractive sentences k vect =
      (joinSpace (sentences.take k), sentences.take k) := by
  unfold summarizeExtractive
  by_cases h1 : sentences.isEmpty
  · exfalso
    have hse : sentences = [] := List.isEmpty_iff.1 h1
    subst hse
    exact hne rfl
  rw [if_neg h1, if_neg (by simpa [List.isEmpty_iff] using hne), hv]

/-- Witness for C6: a single all-stopword-style eligible sentence and an
always-failing vectorizer. -/
theorem extractive_empty_vocab_fallback_witness :
    (cleanSentences [("whatever therefore because through without wonder").data] ≠ [] ∧
      summarizeExtractive
          [("whatever therefore because through without wonder").data] 2
          (fun _ => none) =
        (joinSpace ([("whatever therefore because through without wonder").data].take 2),
          [("whatever therefore because through without wonder").data].take 2)) :=
  ⟨by decide,
    extractive_empty_vocab_fallback _ 2 _ (by decide) rfl⟩

/-! ## Theorems about the hybrid orchestrator -/

namespace Hybrid

open Extractive

/-- **C3, counterexample**: the claim covers *any* failure of the
external generative step, but when the pipeline loads and generation
then fails on every chunk, the per-chunk `except ... continue` of
`abstractive.py` (lines 42-45) swallows the errors, zero successes yield
`""` (lines 47-48), and the dispatch in `app.py` sees no exception: the
result is the empty summary tagged `hybrid (extractive+abstractive)` —
the extractive ranker is never re-invoked and the
`extractive (fallback)` tag never appears. -/
theorem hybrid_generation_failure_counterexample :
    (appSummarize true true (("research text. more text. and more.").data)
        [] (fun t => [t]) (fun _ => none)
        (some (fun _ => none))).2 =
      ("hybrid (extractive+abstractive)").data ∧
    ("hybrid (extractive+abstractive)").data ≠
      ("extractive (fallback)").data := by
  constructor
  · rfl
  · decide

/-- **C3, amended**: for every nonempty focus text, the hybrid path of
the orchestrator never lets a generative-step failure reach the caller,
but the degrade path depends on *where* the step fails.  If the pipeline
itself cannot be obtained (model load failure, offline, timeout while
loading — the `RuntimeError` of `abstractive.py` lines 14-20, modelled
by the oracle `none`), the dispatch re-invokes the extractive ranker on
the original, uncondensed focus text (default 10 sentences) and returns
that result tagged `extractive (fallback)`.  If the pipeline loads but
generation fails on every chunk, the failures are absorbed inside
`summarize_abstractive` and the result is the empty summary tagged
`hybrid (extractive+abstractive)` — the extractive fallback is not
invoked.  Totality of `appSummarize` is the never-an-unhandled-error
guarantee in both modes. -/
theorem hybrid_fallback_modes (focus_text : PyStr)
    (chunks : List PyStr) (tok : PyStr → List PyStr)
    (vect : List PyStr → Option (List Int)) (hne : focus_text ≠ []) :
    appSummarize true true focus_text chunks tok vect none =
      ((summarizeExtractive (tok focus_text) 10 vect).1,
        ("extractive (fallback)").data) ∧
    appSummarize true true focus_text chunks tok vect
        (some (fun _ => none)) =
      ([], ("hybrid (extractive+abstractive)").data) := by
  constructor
  · unfold appSummarize summarizeHybrid summarizeAbstractive
    simp [List.isEmpty_iff, hne]
  · unfold appSummarize summarizeHybrid summarizeAbstractive
    simp [List.isEmpty_iff, hne, List.filterMap]

/-- Witness for the amended C3: a concrete focus text, a trivial
tokenizer and an always-failing vectorizer, under a collaborator that
fails to load in the first mode and loads but fails every generation in
the second. -/
theorem hybrid_fallback_modes_witness :
    (("research text. more text. and more.").data ≠ ([] : PyStr) ∧
      (appSummarize true true (("research text. more text. and more.").data)
          [] (fun t => [t]) (fun _ => none) none =
        ((summarizeExtractive [("research text. more text. and more.").data]
            10 (fun _ => none)).1,
          ("extractive (fallback)").data) ∧
      appSummarize true true (("research text. more text. and more.").data)
          [] (fun t => [t]) (fun _ => none) (some (fun _ => none)) =
        ([], ("hybrid (extractive+abstractive)").data))) :=
  ⟨by decide,
    hybrid_fallback_modes (("research text. more text. and more.").data)
      [] (fun t => [t]) (fun _ => none) (by decide)⟩

end Hybrid

/-! ## Theorems about the normalizers, sectioners and `preprocess` -/

namespace Ingestion

/-- **C7, amended (proved half)**: the ingestion normalizer's
references/bibliography truncation (`_clean_text`, lines 63-78) searches
only the trailing 15000-character window `search_text`: whenever it
cuts, the kept prefix extends to within 15000 characters of the end of
the text; and the searched text is exactly the last-15000-character
suffix, so two texts sharing that suffix are searched identically and a
heading occurring before the window never causes truncation here.  (The
Backend variant `_remove_references_tail` searches the whole document
instead, see the counterexample.) -/
theorem clean_refcut_trailing_window (t : PyStr) :
    (cleanRefCut t = t ∨
      ∃ k, t.length ≤ k + 15000 ∧ cleanRefCut t = pyStrip (t.take k)) ∧
    (∀ u v w : PyStr, w.length = 15000 → u.length = v.length →
      searchText (u ++ w) = w ∧ searchText (v ++ w) = w) := by
  constructor
  · cases h : refSearch (searchText t) with
    | none =>
        exact Or.inl (by
          simp only [cleanRefCut, h, Option.map_none', Option.getD_none])
    | some m =>
        refine Or.inr ⟨t.length - 15000 + m, by omega, ?_⟩
        simp only [cleanRefCut, h, Option.map_some', Option.getD_some]
  · intro u v w hw _
    constructor
    · show (u ++ w).drop ((u ++ w).length - 15000) = w
      have h1 : (u ++ w).length - 15000 = u.length := by
        rw [List.length_append]; omega
      rw [h1, List.drop_left]
    · show (v ++ w).drop ((v ++ w).length - 15000) = w
      have h2 : (v ++ w).length - 15000 = v.length := by
        rw [List.length_append]; omega
      rw [h2, List.drop_left]

/-- Witness for the amended C7: two texts differing only outside the
last-15000-character window are searched on exactly that shared
window. -/
theorem clean_refcut_trailing_window_witness :
    blankWindow.length = 15000 ∧
    ([('x' : Char)].length = [('y' : Char)].length) ∧
    (searchText ([('x' : Char)] ++ blankWindow) = blankWindow ∧
      searchText ([('y' : Char)] ++ blankWindow) = blankWindow) :=
  ⟨by rw [blankWindow, List.length_replicate], rfl,
    (clean_refcut_trailing_window []).2 [('x' : Char)] [('y' : Char)]
      blankWindow (by rw [blankWindow, List.length_replicate]) rfl⟩

end Ingestion

namespace Backend

/-- **C7, counterexample**: the Backend normalizer's truncation
(`_remove_references_tail`) searches the whole document, not a bounded
trailing window: on a 15031-character text whose very first line is the
heading `references`, it truncates everything — the heading at offset 0
lies before any trailing window of 15000 characters (the reference
configuration of the ingestion variant), yet it causes the cut. -/
theorem backend_refcut_whole_document_counterexample :
    removeReferencesTail (("references\n").data ++ List.replicate 15020 'a') =
      ([], true) ∧
    15000 < (("references\n").data ++ List.replicate 15020 'a').length := by
  constructor
  · rfl
  · rw [List.length_append, List.length_replicate]
    norm_num

/-- Every section kept by the Backend slicing loop has at least
200 characters, given any accumulator already satisfying the bound. -/
theorem findSectionsGo_min_length (text : PyStr) :
    ∀ hs acc, (∀ p ∈ acc, 200 ≤ p.2.length) →
      ∀ p ∈ findSectionsGo text hs acc, 200 ≤ p.2.length := by
  intro hs
  induction hs with
  | nil => intro acc hacc p hp; exact hacc p hp
  | cons h rest ih =>
      obtain ⟨s, e, name⟩ := h
      intro acc hacc p hp
      simp only [findSectionsGo] at hp
      split at hp
      · exact ih acc hacc p hp
      · split at hp
        · exact ih acc hacc p hp
        · refine ih _ ?_ p hp
          intro q hq
          rcases List.mem_append.1 hq with hq | hq
          · exact hacc q hq
          · rcases List.mem_singleton.1 hq with rfl
            dsimp only
            omega

/-- **C9 (proved half)**: for every cleaned text and every list of
heading matches the external regex engine may produce, every value in
the SectionMap returned by the Backend sectioner `_find_sections` has at
least 200 characters: shorter sections are discarded. -/
theorem backend_sections_min_length (text : PyStr)
    (hits : List (Nat × Nat × String)) :
    ∀ p ∈ findSections text hits, 200 ≤ p.2.length := by
  unfold findSections
  exact findSectionsGo_min_length text _ [] (by intro p hp; cases hp)

set_option maxRecDepth 40000 in
/-- Witness for C9: a concrete 300-character text with one heading hit
yields a single 290-character section, and the theorem bounds it. -/
theorem backend_sections_min_length_witness :
    (("introduction", List.replicate 290 'b') ∈
      findSections (List.replicate 300 'b') [(0, 10, "introduction")]) ∧
    200 ≤ (("introduction", List.replicate 290 'b') :
      String × PyStr).2.length :=
  ⟨by decide,
    backend_sections_min_length (List.replicate 300 'b')
      [(0, 10, "introduction")] _ (by decide)⟩

/-- **C8, amended**: when no abstract is present (falsy) and the section
map is empty, the Backend focus builder returns the full clean text
unchanged **provided** its length does not exceed the `max_chars` hard
cap (120000 in the reference configuration); longer texts are truncated
to `max_chars`, see the counterexample. -/
theorem backend_focus_fallback_amended (abstract : Option PyStr)
    (clean_text : PyStr) (max_chars : Nat)
    (ha : Ingestion.pyTruthy abstract = false)
    (hlen : clean_text.length ≤ max_chars) :
    buildFocusText abstract [] clean_text max_chars = clean_text := by
  unfold buildFocusText addIf
  rw [ha]
  simp [Ingestion.lookupSec, Nat.not_lt.mpr hlen]

/-- Witness for the amended C8 at a concrete short clean text. -/
theorem backend_focus_fallback_amended_witness :
    (Ingestion.pyTruthy none = false ∧
      (("plain body text").data).length ≤ 120000 ∧
      buildFocusText none [] (("plain body text").data) 120000 =
        ("plain body text").data) :=
  ⟨rfl, by decide,
    backend_focus_fallback_amended none (("plain body text").data) 120000
      rfl (by decide)⟩

/-- **C8, counterexample**: with no abstract and no sections but a
120001-character clean text, `build_focus_text` does not return the text
unchanged: the hard cap truncates it to 120000 characters. -/
theorem backend_focus_truncation_counterexample :
    buildFocusText none [] (List.replicate 120001 'a') 120000 ≠
      List.replicate 120001 'a' := by
  have h2 : buildFocusText none [] (List.replicate 120001 'a') 120000 =
      List.replicate 120000 'a' := by
    unfold buildFocusText addIf
    simp only [Ingestion.pyTruthy, Ingestion.lookupSec, List.find?_nil,
      Option.map_none', Option.isSome_none, Bool.false_eq_true, if_false,
      List.nil_append, List.append_nil, List.isEmpty_nil, if_true,
      List.length_replicate]
    rw [if_pos (by norm_num), List.take_replicate]
    norm_num
  rw [h2]
  intro h
  have hl := congrArg List.length h
  rw [List.length_replicate, List.length_replicate] at hl
  omega

end Backend

namespace Ingestion

/-- **C9, counterexample**: the ingestion sectioner `_extract_sections`
applies no minimum-length threshold — it keeps any nonempty section, so
the claim that every SectionMap value has at least 200 characters fails
on it: here the `abstract` section has 11 characters. -/
theorem sectioner_min_length_counterexample :
    lookupSec (extractSections
        (("ABSTRACT short thing INTRODUCTION hello there everyone").data))
      "abstract" = some (("short thing").data) ∧
    (("short thing").data).length < 200 := by
  constructor
  · rfl
  · decide

/-- **C10, amended**: `preprocess` leaves every field of the caller's
record unchanged **except** `abstract`: the `text` field and all other
fields are preserved, and whenever the incoming abstract is truthy
(present and nonempty) the whole record is returned untouched.  When the
incoming abstract is falsy and the sectioner finds one, line 27
(`data['abstract'] = sections['abstract']`) writes it into the caller's
record — see the counterexample; the record is therefore not consumed
read-only. -/
theorem preprocess_mutation_amended {α : Type} (d : IngestData α) :
    ((preprocess d).1).text = d.text ∧
    ((preprocess d).1).rest = d.rest ∧
    (pyTruthy d.abstract = true → (preprocess d).1 = d) := by
  unfold preprocess
  dsimp only
  refine ⟨?_, ?_, ?_⟩
  · split <;> rfl
  · split <;> rfl
  · intro h
    simp [h]

/-- Witness for the amended C10: a record with a truthy abstract is
returned untouched. -/
theorem preprocess_mutation_amended_witness :
    (pyTruthy (some (("kept").data)) = true ∧
      (preprocess (α := Unit)
        ⟨some (("body text").data), some (("kept").data), ()⟩).1 =
        ⟨some (("body text").data), some (("kept").data), ()⟩) :=
  ⟨rfl,
    (preprocess_mutation_amended
      ⟨some (("body text").data), some (("kept").data), ()⟩).2.2 rfl⟩

/-- **C10, counterexample**: `preprocess` mutates the caller's record:
with no incoming abstract and a text whose sectioner finds one, the
caller's `abstract` field holds a new value after the call
(`data['abstract'] = sections['abstract']`, line 27). -/
theorem preprocess_mutation_counterexample :
    ((preprocess (α := Unit)
      ⟨some (("ABSTRACT we study summarization INTRODUCTION details follow here").data),
        none, ()⟩).1).abstract =
      some (("we study summarization").data) ∧
    (⟨some (("ABSTRACT we study summarization INTRODUCTION details follow here").data),
        none, ()⟩ : IngestData Unit).abstract = none := by
  constructor
  · rfl
  · rfl

end Ingestion
